/-
Verification of the channel-scoped job orchestration engine of `pi-mono`
(packages/mom): the per-channel serial work queue, the response accumulator
pipeline, the run lifecycle (running / stopRequested flags, stop handling),
event admission, the Feishu transport wrappers, and the PID-file daemon
supervisor.  Each definition is a shallow embedding of the corresponding
TypeScript in `packages/mom/src/feishu.ts` and `packages/mom/src/main.ts`.
-/
import Mathlib

namespace Mom

/-! ## ChannelQueue (feishu.ts, lines 78–103)

`ChannelQueue` holds a FIFO list of queued work closures and a `processing`
flag.  `enqueue` pushes and calls `processNext`; `processNext` returns at once
when already processing or empty, otherwise sets `processing`, shifts the head
and awaits it (errors are caught and logged), then clears `processing` and
recurses.  JavaScript is single threaded, so the synchronous part of
`processNext` — the guard, the flag set and the shift — runs atomically up to
the first `await`; the `await work()` suspension is where other events
interleave.  We model work items by numeric ids, and a queue history by a
trace of enqueue / start / settle events.  A `finish` event covers both a
resolved and a rejected work promise: the `try`/`catch` around `await work()`
makes the continuation identical in both cases. -/

/-- One observable event in the life of a channel queue. -/
inductive QEvent where
  | enq (i : Nat)
  | start (i : Nat)
  | finish (i : Nat) (ok : Bool)
deriving DecidableEq, Repr

/-- The fields of a `ChannelQueue` instance: the pending work ids (FIFO)
and the `processing` flag. -/
structure ChannelQueue where
  queue : List Nat
  processing : Bool
deriving DecidableEq, Repr

/-- A queue together with the id currently being awaited (if any) and the
event trace observed so far. -/
structure QState where
  cq : ChannelQueue
  active : Option Nat
  trace : List QEvent
deriving DecidableEq, Repr

/-- The state of a fresh `ChannelQueue` (constructor: empty list,
`processing = false`). -/
def QState.init : QState :=
  { cq := { queue := [], processing := false }, active := none, trace := [] }

/-- The synchronous prefix of `processNext` (lines 91–94): return if
`processing` or empty; otherwise set `processing`, shift the head and begin
awaiting it (recorded as a `start` event). -/
def processNextSync (s : QState) : QState :=
  if s.cq.processing then s
  else
    match s.cq.queue with
    | [] => s
    | w :: rest =>
      { cq := { queue := rest, processing := true },
        active := some w,
        trace := s.trace ++ [QEvent.start w] }

/-- `enqueue` (lines 82–85): push the work and call `processNext`. -/
def ChannelQueue.enqueue (i : Nat) (s : QState) : QState :=
  processNextSync
    { s with cq := { s.cq with queue := s.cq.queue ++ [i] },
             trace := s.trace ++ [QEvent.enq i] }

/-- The continuation after `await work()` settles (lines 95–101): whether the
promise resolved (`ok = true`) or rejected (`ok = false`, logged by the
`catch`), `processing` is cleared and `processNext` runs again. -/
def ChannelQueue.settle (ok : Bool) (s : QState) : QState :=
  match s.active with
  | none => s
  | some i =>
    processNextSync
      { cq := { s.cq with processing := false },
        active := none,
        trace := s.trace ++ [QEvent.finish i ok] }

/-- Ids that appear in an `enq` event, in trace order. -/
def enqOrder : List QEvent → List Nat
  | [] => []
  | QEvent.enq i :: t => i :: enqOrder t
  | _ :: t => enqOrder t

/-- Ids that appear in a `start` event, in trace order. -/
def startOrder : List QEvent → List Nat
  | [] => []
  | QEvent.start i :: t => i :: startOrder t
  | _ :: t => startOrder t

/-- Ids that appear in a `finish` event, in trace order. -/
def finishOrder : List QEvent → List Nat
  | [] => []
  | QEvent.finish i _ :: t => i :: finishOrder t
  | _ :: t => finishOrder t

/-- Ids that have started but not yet finished. -/
def startedNotFinished (tr : List QEvent) : List Nat :=
  (startOrder tr).filter (fun i => ¬ i ∈ finishOrder tr)

/-- Reachable states of one channel queue: from the fresh queue, `enqueue`
with a fresh id may happen at any time, and the awaited work may settle
(successfully or not) at any time.  Interleavings with other activity are
irrelevant to a single queue because only these two code paths touch it. -/
inductive QReach : QState → Prop where
  | init : QReach QState.init
  | enq {s : QState} (i : Nat) :
      QReach s → ¬ i ∈ enqOrder s.trace → QReach (ChannelQueue.enqueue i s)
  | settle {s : QState} (ok : Bool) :
      QReach s → QReach (ChannelQueue.settle ok s)

/-! ### Queue invariants -/

theorem enqOrder_append (a b : List QEvent) :
    enqOrder (a ++ b) = enqOrder a ++ enqOrder b := by
  induction a with
  | nil => simp [enqOrder]
  | cons h t ih => cases h <;> simp [enqOrder, ih]

theorem startOrder_append (a b : List QEvent) :
    startOrder (a ++ b) = startOrder a ++ startOrder b := by
  induction a with
  | nil => simp [startOrder]
  | cons h t ih => cases h <;> simp [startOrder, ih]

theorem finishOrder_append (a b : List QEvent) :
    finishOrder (a ++ b) = finishOrder a ++ finishOrder b := by
  induction a with
  | nil => simp [finishOrder]
  | cons h t ih => cases h <;> simp [finishOrder, ih]

/-- The inductive invariant of one channel queue: starts happen in enqueue
order with the pending list making up the difference, enqueued ids are
distinct, finished ids were started, and the `processing`/`active` pair
matches the set of started-but-unfinished ids. -/
structure QInv (s : QState) : Prop where
  hq : startOrder s.trace ++ s.cq.queue = enqOrder s.trace
  hnd : (enqOrder s.trace).Nodup
  hfs : ∀ i ∈ finishOrder s.trace, i ∈ startOrder s.trace
  hact : ∀ i, s.active = some i →
    s.cq.processing = true ∧ startedNotFinished s.trace = [i]
  hidle : s.active = none →
    s.cq.processing = false ∧ startedNotFinished s.trace = []

theorem QInv.init : QInv QState.init := by
  refine ⟨rfl, List.nodup_nil, ?_, ?_, ?_⟩ <;>
    simp [QState.init, startedNotFinished, startOrder, finishOrder, enqOrder]

theorem queue_not_started {s : QState} (h : QInv s) {w : Nat}
    (hw : w ∈ s.cq.queue) : ¬ w ∈ startOrder s.trace := by
  have hnd := h.hnd
  rw [← h.hq] at hnd
  rcases List.nodup_append.mp hnd with ⟨-, -, hdis⟩
  intro hs
  exact hdis hs hw

theorem processNextSync_busy {s : QState} (hp : s.cq.processing = true) :
    processNextSync s = s := by
  unfold Mom.processNextSync
  simp [hp]

theorem processNextSync_empty {s : QState} (hp : s.cq.processing = false)
    (hq : s.cq.queue = []) : processNextSync s = s := by
  unfold Mom.processNextSync
  simp [hp, hq]

theorem processNextSync_pop {s : QState} {w : Nat} {rest : List Nat}
    (hp : s.cq.processing = false) (hq : s.cq.queue = w :: rest) :
    processNextSync s =
      { cq := { queue := rest, processing := true },
        active := some w,
        trace := s.trace ++ [QEvent.start w] } := by
  unfold Mom.processNextSync
  simp [hp, hq]

theorem QInv.processNextSync {s : QState} (h : QInv s) :
    QInv (Mom.processNextSync s) := by
  cases hp : s.cq.processing with
  | true => rwa [processNextSync_busy hp]
  | false =>
    cases hq : s.cq.queue with
    | nil => rwa [processNextSync_empty hp hq]
    | cons w rest =>
      have hwq : w ∈ s.cq.queue := by simp [hq]
      have hwns : ¬ w ∈ startOrder s.trace := queue_not_started h hwq
      have hwnf : ¬ w ∈ finishOrder s.trace := fun hf => hwns (h.hfs w hf)
      have hactive : s.active = none := by
        cases ha : s.active with
        | none => rfl
        | some i =>
          have := (h.hact i ha).1
          rw [this] at hp
          exact absurd hp (by simp)
      have hsnf : startedNotFinished s.trace = [] := (h.hidle hactive).2
      rw [processNextSync_pop hp hq]
      refine ⟨?_, ?_, ?_, ?_, ?_⟩
      · simp only [startOrder_append, enqOrder_append, startOrder, enqOrder]
        rw [← h.hq, hq]
        simp
      · simpa [enqOrder_append, enqOrder] using h.hnd
      · intro i hi
        simp only [finishOrder_append, finishOrder] at hi
        simp only [startOrder_append, startOrder, List.mem_append]
        exact Or.inl (h.hfs i (by simpa using hi))
      · intro i hi
        simp only [Option.some.injEq] at hi
        subst hi
        refine ⟨rfl, ?_⟩
        simp only [startedNotFinished, startOrder_append, finishOrder_append,
          startOrder, finishOrder, List.append_nil, List.filter_append]
        rw [startedNotFinished] at hsnf
        simp only [hsnf, List.nil_append]
        simp [hwnf]
      · intro hc
        simp at hc

theorem QInv.enqueue {s : QState} (h : QInv s) {i : Nat}
    (hfresh : ¬ i ∈ enqOrder s.trace) : QInv (ChannelQueue.enqueue i s) :=
  QInv.processNextSync <| by
    refine ⟨?_, ?_, ?_, ?_, ?_⟩
    · simp only [enqOrder_append, startOrder_append, enqOrder, startOrder,
        List.append_nil]
      rw [← h.hq]
      simp
    · simp only [enqOrder_append, enqOrder, List.append_nil]
      refine List.nodup_append.mpr ⟨h.hnd, List.nodup_singleton i, ?_⟩
      intro a ha hai
      rw [List.mem_singleton] at hai
      subst hai
      exact hfresh ha
    · intro j hj
      simp only [finishOrder_append, finishOrder, List.append_nil] at hj
      simp only [startOrder_append, startOrder, List.append_nil]
      exact h.hfs j hj
    · intro j hj
      refine ⟨(h.hact j hj).1, ?_⟩
      simpa [startedNotFinished, startOrder_append, finishOrder_append,
        startOrder, finishOrder] using (h.hact j hj).2
    · intro hc
      refine ⟨(h.hidle hc).1, ?_⟩
      simpa [startedNotFinished, startOrder_append, finishOrder_append,
        startOrder, finishOrder] using (h.hidle hc).2

theorem startedNotFinished_subset {tr : List QEvent} {i : Nat}
    (h : i ∈ startedNotFinished tr) : i ∈ startOrder tr :=
  List.mem_of_mem_filter h

theorem settle_none {s : QState} {ok : Bool} (ha : s.active = none) :
    ChannelQueue.settle ok s = s := by
  simp [ChannelQueue.settle, ha]

theorem settle_some {s : QState} {ok : Bool} {i : Nat}
    (ha : s.active = some i) :
    ChannelQueue.settle ok s = processNextSync
      { cq := { s.cq with processing := false },
        active := none,
        trace := s.trace ++ [QEvent.finish i ok] } := by
  simp [ChannelQueue.settle, ha]

theorem QInv.settle {s : QState} (h : QInv s) (ok : Bool) :
    QInv (ChannelQueue.settle ok s) := by
  cases ha : s.active with
  | none => rwa [settle_none ha]
  | some i =>
    obtain ⟨hp, hsnf⟩ := h.hact i ha
    rw [settle_some ha]
    refine QInv.processNextSync ⟨?_, ?_, ?_, ?_, ?_⟩
    · simp only [startOrder_append, enqOrder_append, startOrder, enqOrder,
        List.append_nil]
      exact h.hq
    · simpa [enqOrder_append, enqOrder] using h.hnd
    · intro j hj
      simp only [finishOrder_append, finishOrder, List.append_nil,
        List.mem_append, List.mem_singleton] at hj
      simp only [startOrder_append, startOrder, List.append_nil]
      rcases hj with hj | hj
      · exact h.hfs j hj
      · subst hj
        exact startedNotFinished_subset (hsnf ▸ List.mem_singleton_self j)
    · intro j hj
      simp at hj
    · intro _
      refine ⟨rfl, ?_⟩
      simp only [startedNotFinished, startOrder_append, finishOrder_append,
        startOrder, finishOrder, List.append_nil]
      rw [List.filter_eq_nil_iff]
      intro x hx hpx
      rw [decide_eq_true_iff] at hpx
      simp only [List.mem_append, List.mem_singleton, not_or] at hpx
      obtain ⟨h1, h2⟩ := hpx
      apply h2
      have hm : x ∈ startedNotFinished s.trace := by
        rw [startedNotFinished, List.mem_filter]
        exact ⟨hx, by rw [decide_eq_true_iff]; exact h1⟩
      rw [hsnf] at hm
      simpa using hm

theorem QReach.queueInv {s : QState} (h : QReach s) : QInv s := by
  induction h with
  | init => exact QInv.init
  | enq i _ hfresh ih => exact ih.enqueue hfresh
  | settle ok _ ih => exact ih.settle ok

/-! ### The per-channel queue map (`FeishuBot.queues` / `getQueue`,
feishu.ts lines 118, 440–447)

`getQueue` lazily creates a `ChannelQueue` per channel id, so the map is
total with fresh queues as default.  `MStep c` is a step of channel `c`'s
queue; no step touches another channel's entry. -/

/-- All channel queues, keyed by channel id (fresh queue when absent). -/
def MState := String → QState

def MState.init : MState := fun _ => QState.init

/-- One scheduler step on channel `c`: an enqueue of a fresh work item, or
the settling (resolution or rejection) of the awaited work item. -/
inductive MStep : String → MState → MState → Prop where
  | enq {m : MState} (c : String) (i : Nat)
      (hfresh : ¬ i ∈ enqOrder ((m c).trace)) :
      MStep c m (Function.update m c (ChannelQueue.enqueue i (m c)))
  | settle {m : MState} (c : String) (ok : Bool) :
      MStep c m (Function.update m c (ChannelQueue.settle ok (m c)))

/-- Reachable configurations of the whole queue map. -/
inductive MReach : MState → Prop where
  | init : MReach MState.init
  | step {m m' : MState} (c : String) : MReach m → MStep c m m' → MReach m'

theorem MStep.frame {c c' : String} {m m' : MState} (h : MStep c m m')
    (hne : c' ≠ c) : m' c' = m c' := by
  cases h with
  | enq c i hfresh => exact Function.update_noteq hne _ _
  | settle c ok => exact Function.update_noteq hne _ _

theorem MReach.proj {m : MState} (h : MReach m) (c : String) :
    QReach (m c) := by
  induction h with
  | init => exact QReach.init
  | step c' _ hs ih =>
    rcases eq_or_ne c c' with rfl | hne
    · cases hs with
      | enq _ i hfresh =>
        rw [Function.update_same]
        exact QReach.enq i ih hfresh
      | settle _ ok =>
        rw [Function.update_same]
        exact QReach.settle ok ih
    · rw [hs.frame hne]
      exact ih

/-- **C1.** For every reachable configuration of the per-channel queues:
work items of a channel start executing in exactly the order they were
enqueued (the start order, extended by the still-pending items, is the
enqueue order, so the start order is a prefix of the enqueue order); at most
one work item per channel is started-but-unsettled at any instant (the next
item starts only after the previous one's promise settles); and a step of
one channel's queue leaves every other channel's queue untouched. -/
theorem channelQueue_fifo_exclusive_independent :
    ∀ m : MState, MReach m →
      (∀ c : String,
        enqOrder ((m c).trace) =
          startOrder ((m c).trace) ++ (m c).cq.queue ∧
        (startedNotFinished ((m c).trace)).length ≤ 1) ∧
      (∀ (c c' : String) (m' : MState), MStep c m m' → c' ≠ c →
        m' c' = m c') := by
  intro m hm
  refine ⟨?_, fun c c' m' hs hne => hs.frame hne⟩
  intro c
  have hinv : QInv (m c) := (hm.proj c).queueInv
  refine ⟨hinv.hq.symm, ?_⟩
  cases ha : (m c).active with
  | none => rw [(hinv.hidle ha).2]; simp
  | some i => rw [(hinv.hact i ha).2]; simp

/-- A concrete reachable configuration: two items enqueued on channel `A`
(the second while the first is still executing), then the first settles. -/
def mWitnessC1 : MState :=
  Function.update
    (Function.update
      (Function.update MState.init "A"
        (ChannelQueue.enqueue 0 (MState.init "A")))
      "A"
      (ChannelQueue.enqueue 1
        ((Function.update MState.init "A"
          (ChannelQueue.enqueue 0 (MState.init "A"))) "A")))
    "A"
    (ChannelQueue.settle true
      ((Function.update
        (Function.update MState.init "A"
          (ChannelQueue.enqueue 0 (MState.init "A")))
        "A"
        (ChannelQueue.enqueue 1
          ((Function.update MState.init "A"
            (ChannelQueue.enqueue 0 (MState.init "A"))) "A"))) "A"))

theorem mWitnessC1_reach : MReach mWitnessC1 :=
  MReach.step "A"
    (MReach.step "A"
      (MReach.step "A" MReach.init
        (MStep.enq "A" 0 (by decide)))
      (MStep.enq "A" 1 (by decide)))
    (MStep.settle "A" true)

theorem channelQueue_fifo_exclusive_independent_witness :
    MReach mWitnessC1 ∧
    enqOrder ((mWitnessC1 "A").trace) =
      startOrder ((mWitnessC1 "A").trace) ++ (mWitnessC1 "A").cq.queue ∧
    (startedNotFinished ((mWitnessC1 "A").trace)).length ≤ 1 :=
  ⟨mWitnessC1_reach,
   ((channelQueue_fifo_exclusive_independent mWitnessC1 mWitnessC1_reach).1
      "A").1,
   ((channelQueue_fifo_exclusive_independent mWitnessC1 mWitnessC1_reach).1
      "A").2⟩

/-! ## ResponseAccumulator: the per-run Feishu context
(main.ts, `createFeishuContext`, lines 614–726)

The context closes over `messageId : string | null`, `threadMessageIds`,
`accumulatedText`, `isWorking` and a serial pipeline `updatePromise`.  Every
public mutation appends a dependent step with
`updatePromise = updatePromise.then(...)`; promise semantics execute the
steps one at a time in append order, each step running to completion
(including its network awaits) before the next begins.  We model the
observable transport calls as `Act`s, each step as a state transformer
consuming the message id the transport returns (`envId` — `""` when the
transport call failed, see `FeishuBot.postMessage`), and the pipeline as a
machine that appends calls and executes the head pending step at arbitrary
times. -/

/-- An observable side effect: a transport call or a log line. -/
inductive Act where
  | post (chan text : String)
  | update (msgId text : String)
  | reply (msgId text : String)
  | del (chan msgId : String)
  | logResp (chan text msgId : String)
  | abortSignal
  | logWarn (text : String)
deriving DecidableEq, Repr

/-- The mutable closure state of one `createFeishuContext` instance. -/
structure AccState where
  messageId : Option String
  threadMessageIds : List String
  accumulatedText : String
  isWorking : Bool
deriving DecidableEq, Repr

/-- Initial closure state (lines 615–620): `messageId = null`, no thread
replies, empty buffer, `isWorking = true`. -/
def AccState.init : AccState :=
  { messageId := none, threadMessageIds := [],
    accumulatedText := "", isWorking := true }

/-- JavaScript truthiness of a `string | null` value: `null` and `""` are
falsy, every other string is truthy. -/
def truthy : Option String → Bool
  | none => false
  | some s => s ≠ ""

def workingIndicator : String := " ..."

/-- `isWorking ? accumulatedText + workingIndicator : accumulatedText`. -/
def displayOf (acc : String) (w : Bool) : String :=
  if w then acc ++ workingIndicator else acc

/-- The fragment shared by `respond` and `replaceMessage` (lines 645–649,
662–666): `if (messageId) await update(messageId, disp) else
messageId = await post(channel, disp)`.  `envId` is the id the post
returns. -/
def editPrimary (chan disp envId : String) (s : AccState) : AccState × Act :=
  match s.messageId with
  | some mid =>
    if mid = "" then ({ s with messageId := some envId }, Act.post chan disp)
    else (s, Act.update mid disp)
  | none => ({ s with messageId := some envId }, Act.post chan disp)

/-- One public mutation of the context.  `setTyping false` appends no step
(the call-time guard `if (isTyping && !messageId)` fails), so only the
`isTyping = true` step appears; it carries the text assigned to the buffer
("Thinking..." or the event-start banner). -/
inductive AccCall where
  | respond (text : String) (shouldLog : Bool)
  | replaceMessage (text : String)
  | respondInThread (text : String)
  | setTyping (startText : String)
  | setWorking (working : Bool)
  | deleteMessage
deriving DecidableEq, Repr

/-- Execute one pipeline step (the body of the `.then` closure of the given
call), with `envId` the message id returned by the transport call the step
performs (`""` on transport failure). -/
def applyCall (chan : String) : AccCall → String → AccState → AccState × List Act
  | AccCall.respond text shouldLog, envId, s =>
    let acc := if s.accumulatedText = "" then text
               else s.accumulatedText ++ "\n" ++ text
    let disp := displayOf acc s.isWorking
    let r := editPrimary chan disp envId { s with accumulatedText := acc }
    match r.1.messageId, shouldLog with
    | some mid, true =>
      if mid = "" then (r.1, [r.2])
      else (r.1, [r.2, Act.logResp chan text mid])
    | _, _ => (r.1, [r.2])
  | AccCall.replaceMessage text, envId, s =>
    let disp := displayOf text s.isWorking
    let r := editPrimary chan disp envId { s with accumulatedText := text }
    (r.1, [r.2])
  | AccCall.respondInThread text, envId, s =>
    match s.messageId with
    | some mid =>
      if mid = "" then (s, [])
      else if envId = "" then (s, [Act.reply mid text])
      else ({ s with threadMessageIds := s.threadMessageIds ++ [envId] },
            [Act.reply mid text])
    | none => (s, [])
  | AccCall.setTyping startText, envId, s =>
    if truthy s.messageId then (s, [])
    else ({ s with accumulatedText := startText, messageId := some envId },
          [Act.post chan (startText ++ workingIndicator)])
  | AccCall.setWorking working, _, s =>
    let s1 := { s with isWorking := working }
    match s1.messageId with
    | some mid =>
      if mid = "" then (s1, [])
      else (s1, [Act.update mid (displayOf s1.accumulatedText working)])
    | none => (s1, [])
  | AccCall.deleteMessage, _, s =>
    let dels := s.threadMessageIds.reverse.map (fun t => Act.del chan t)
    let s1 := { s with threadMessageIds := [] }
    match s1.messageId with
    | some mid =>
      if mid = "" then (s1, dels)
      else ({ s1 with messageId := none }, dels ++ [Act.del chan mid])
    | none => (s1, dels)

/-- The call-time (synchronous) guard deciding whether a call appends a
pipeline step: only `setTyping` has one (`if (isTyping && !messageId)`). -/
def callGuard : AccCall → AccState → Bool
  | AccCall.setTyping _, s => !truthy s.messageId
  | _, _ => true

/-- Run a list of already-executed steps (each paired with the env id it
consumed) from a given state, collecting the acts. -/
def runCalls (chan : String) : List (AccCall × String) → AccState → AccState × List Act
  | [], s => (s, [])
  | (c, e) :: rest, s =>
    let r := applyCall chan c e s
    let r2 := runCalls chan rest r.1
    (r2.1, r.2 ++ r2.2)

theorem runCalls_snoc (chan : String) (l : List (AccCall × String))
    (c : AccCall) (e : String) (s : AccState) :
    runCalls chan (l ++ [(c, e)]) s =
      ((applyCall chan c e (runCalls chan l s).1).1,
       (runCalls chan l s).2 ++ (applyCall chan c e (runCalls chan l s).1).2) := by
  induction l generalizing s with
  | nil => simp [runCalls]
  | cons hd tl ih =>
    obtain ⟨c0, e0⟩ := hd
    simp [runCalls, ih]

/-- The pipeline machine: the closure state, the pending steps (appended by
calls, not yet run by the promise chain), plus histories of issued calls,
executed steps and emitted acts. -/
structure PipeState where
  acc : AccState
  pending : List AccCall
  issued : List AccCall
  executed : List (AccCall × String)
  acts : List Act
deriving DecidableEq, Repr

def PipeState.init : PipeState :=
  { acc := AccState.init, pending := [], issued := [],
    executed := [], acts := [] }

/-- A pipeline transition: a public call appends its step (synchronously, in
call order), or the promise chain executes the head pending step — the only
step promise semantics allow to run, whatever the network latency of the
individual transport calls (`envId` arrives whenever the network answers). -/
inductive PStep (chan : String) : PipeState → PipeState → Prop where
  | call {p : PipeState} (c : AccCall) (hg : callGuard c p.acc = true) :
      PStep chan p
        { p with pending := p.pending ++ [c], issued := p.issued ++ [c] }
  | exec {p : PipeState} (c : AccCall) (rest : List AccCall) (envId : String)
      (hp : p.pending = c :: rest) :
      PStep chan p
        { acc := (applyCall chan c envId p.acc).1,
          pending := rest,
          issued := p.issued,
          executed := p.executed ++ [(c, envId)],
          acts := p.acts ++ (applyCall chan c envId p.acc).2 }

inductive PReach (chan : String) : PipeState → Prop where
  | init : PReach chan PipeState.init
  | step {p p' : PipeState} :
      PReach chan p → PStep chan p p' → PReach chan p'

/-- Pipeline invariant: executed steps followed by pending steps are exactly
the issued calls in issue order, and the closure state and act history are
the serial fold of the executed steps. -/
structure PInv (chan : String) (p : PipeState) : Prop where
  hserial : p.issued = p.executed.map Prod.fst ++ p.pending
  hacc : p.acc = (runCalls chan p.executed AccState.init).1
  hacts : p.acts = (runCalls chan p.executed AccState.init).2

theorem PReach.pipeInv {chan : String} {p : PipeState} (h : PReach chan p) :
    PInv chan p := by
  induction h with
  | init => exact ⟨rfl, rfl, rfl⟩
  | step _ hs ih =>
    cases hs with
    | call c hg =>
      exact ⟨by simp [ih.hserial], ih.hacc, ih.hacts⟩
    | exec c rest envId hp =>
      refine ⟨?_, ?_, ?_⟩
      · simp only [List.map_append, List.map_cons, List.map_nil]
        rw [ih.hserial, hp]
        simp
      · simp only [runCalls_snoc, ← ih.hacc]
      · simp only [runCalls_snoc, ← ih.hacc, ← ih.hacts]

/-! ### Accumulator step lemmas -/

theorem editPrimary_accText (chan disp envId : String) (s : AccState) :
    (editPrimary chan disp envId s).1.accumulatedText = s.accumulatedText := by
  unfold editPrimary
  cases s.messageId with
  | none => rfl
  | some mid => by_cases h : mid = "" <;> simp [h]

theorem respond_state (chan text : String) (b : Bool) (envId : String)
    (s : AccState) :
    (applyCall chan (AccCall.respond text b) envId s).1 =
      (editPrimary chan
        (displayOf (if s.accumulatedText = "" then text
                    else s.accumulatedText ++ "\n" ++ text) s.isWorking) envId
        { s with accumulatedText := if s.accumulatedText = "" then text
                 else s.accumulatedText ++ "\n" ++ text }).1 := by
  simp only [applyCall]
  split <;> (try split) <;> rfl

theorem respond_accText (chan text : String) (b : Bool) (envId : String)
    (s : AccState) :
    (applyCall chan (AccCall.respond text b) envId s).1.accumulatedText =
      if s.accumulatedText = "" then text
      else s.accumulatedText ++ "\n" ++ text := by
  rw [respond_state, editPrimary_accText]

theorem respond_acc_ne {x : String} (hx : x ≠ "") (a : String) :
    (if a = "" then x else a ++ "\n" ++ x) ≠ "" := by
  by_cases h : a = ""
  · simpa [h] using hx
  · simp only [h, if_false]
    intro hc
    have hd := congrArg String.data hc
    simp [String.data_append] at hd

theorem respond_acc_suffix (x a : String) :
    ∃ pre : String, (if a = "" then x else a ++ "\n" ++ x) = pre ++ x := by
  by_cases h : a = ""
  · exact ⟨"", by simp [h]⟩
  · exact ⟨a ++ "\n", by simp [h]⟩

/-- **C2.** Every public mutation is appended to the single serial pipeline:
in any reachable pipeline state the issued calls are exactly the executed
steps (in execution order) followed by the still-pending steps, so steps
execute strictly in call order whatever the network completion order of the
individual transport calls; the closure state is the serial fold of the
executed steps, so the Nth issued edit observes the effects of edit N−1;
and after `respond x` followed by `respond y` (with nothing in between and
`x` nonempty) the accumulated buffer ends with `x`, a newline, then `y`. -/
theorem respond_pipeline_serial_ordered {chan : String} {p : PipeState}
    (h : PReach chan p) {es : List (AccCall × String)} {x y : String}
    {b1 b2 : Bool} {i1 i2 : String}
    (hex : p.executed =
      es ++ [(AccCall.respond x b1, i1), (AccCall.respond y b2, i2)])
    (hx : x ≠ "") :
    p.issued = p.executed.map Prod.fst ++ p.pending ∧
    p.acc = (runCalls chan p.executed AccState.init).1 ∧
    ∃ pre : String, p.acc.accumulatedText = pre ++ x ++ "\n" ++ y := by
  obtain ⟨hser, hacc, -⟩ := h.pipeInv
  refine ⟨hser, hacc, ?_⟩
  have hsplit : es ++ [(AccCall.respond x b1, i1), (AccCall.respond y b2, i2)] =
      (es ++ [(AccCall.respond x b1, i1)]) ++ [(AccCall.respond y b2, i2)] := by
    simp
  rw [hex, hsplit] at hacc
  rw [runCalls_snoc] at hacc
  set s1 := (runCalls chan (es ++ [(AccCall.respond x b1, i1)]) AccState.init).1
    with hs1
  have hmid : s1.accumulatedText =
      if (runCalls chan es AccState.init).1.accumulatedText = "" then x
      else (runCalls chan es AccState.init).1.accumulatedText ++ "\n" ++ x := by
    rw [hs1, runCalls_snoc]
    exact respond_accText chan x b1 i1 _
  have hne : s1.accumulatedText ≠ "" := by
    rw [hmid]; exact respond_acc_ne hx _
  obtain ⟨pre, hpre⟩ : ∃ pre : String, s1.accumulatedText = pre ++ x := by
    rw [hmid]; exact respond_acc_suffix x _
  have hfinal : p.acc.accumulatedText = s1.accumulatedText ++ "\n" ++ y := by
    rw [hacc, respond_accText, if_neg hne]
  exact ⟨pre, by rw [hfinal, hpre]⟩

def pW2x : AccCall := AccCall.respond "x" true

def pW2y : AccCall := AccCall.respond "y" true

def pW2a : PipeState :=
  { PipeState.init with pending := PipeState.init.pending ++ [pW2x],
                        issued := PipeState.init.issued ++ [pW2x] }

def pW2b : PipeState :=
  { pW2a with pending := pW2a.pending ++ [pW2y],
              issued := pW2a.issued ++ [pW2y] }

def pW2c : PipeState :=
  { acc := (applyCall "C" pW2x "m1" pW2b.acc).1,
    pending := [pW2y],
    issued := pW2b.issued,
    executed := pW2b.executed ++ [(pW2x, "m1")],
    acts := pW2b.acts ++ (applyCall "C" pW2x "m1" pW2b.acc).2 }

def pW2d : PipeState :=
  { acc := (applyCall "C" pW2y "m1" pW2c.acc).1,
    pending := [],
    issued := pW2c.issued,
    executed := pW2c.executed ++ [(pW2y, "m1")],
    acts := pW2c.acts ++ (applyCall "C" pW2y "m1" pW2c.acc).2 }

theorem pW2_reach : PReach "C" pW2d :=
  PReach.step
    (PReach.step
      (PReach.step
        (PReach.step PReach.init (PStep.call pW2x rfl))
        (PStep.call pW2y rfl))
      (PStep.exec pW2x [pW2y] "m1" rfl))
    (PStep.exec pW2y [] "m1" rfl)

theorem respond_pipeline_serial_ordered_witness :
    pW2d.executed = [] ++ [(AccCall.respond "x" true, "m1"),
                           (AccCall.respond "y" true, "m1")] ∧
    ("x" : String) ≠ "" ∧
    (pW2d.issued = pW2d.executed.map Prod.fst ++ pW2d.pending ∧
     pW2d.acc = (runCalls "C" pW2d.executed AccState.init).1 ∧
     ∃ pre : String, pW2d.acc.accumulatedText = pre ++ "x" ++ "\n" ++ "y") :=
  ⟨by decide, by decide,
   @respond_pipeline_serial_ordered "C" pW2d pW2_reach [] "x" "y" true true
     "m1" "m1" (by decide) (by decide)⟩

/-! ### The primary message id: lazily created, reused while truthy -/

/-- The calls the spec describes as "edits" of the primary message:
`respond`, `replaceMessage` and `setWorking`. -/
def isEdit : AccCall → Bool
  | AccCall.respond _ _ => true
  | AccCall.replaceMessage _ => true
  | AccCall.setWorking _ => true
  | _ => false

/-- Number of `post` transport calls in an act list. -/
def countPosts (l : List Act) : Nat :=
  (l.filter fun a => match a with | Act.post _ _ => true | _ => false).length

theorem countPosts_append (a b : List Act) :
    countPosts (a ++ b) = countPosts a + countPosts b := by
  simp [countPosts, List.filter_append]

theorem truthy_false_cases {o : Option String} (h : truthy o = false) :
    o = none ∨ o = some "" := by
  cases o with
  | none => exact Or.inl rfl
  | some s =>
    right
    simp [truthy] at h
    rw [h]

/-- An edit call finding a truthy primary id keeps it and issues an update,
never a post. -/
theorem edit_truthy_update {chan : String} {c : AccCall} (hc : isEdit c = true)
    {mid : String} {s : AccState} (hm : s.messageId = some mid)
    (hmid : mid ≠ "") (e : String) :
    (applyCall chan c e s).1.messageId = some mid ∧
    countPosts (applyCall chan c e s).2 = 0 ∧
    ∃ d rest, (applyCall chan c e s).2 = Act.update mid d :: rest := by
  cases c with
  | respond text b =>
    cases b <;>
      simp [applyCall, editPrimary, hm, hmid, countPosts]
  | replaceMessage text =>
    simp [applyCall, editPrimary, hm, hmid, countPosts]
  | setWorking w =>
    simp [applyCall, hm, hmid, countPosts]
  | respondInThread text => simp [isEdit] at hc
  | setTyping t => simp [isEdit] at hc
  | deleteMessage => simp [isEdit] at hc

/-- Once the primary id is truthy, a run of edit steps never posts and keeps
the id. -/
theorem edits_truthy_noposts {chan : String} :
    ∀ (l : List (AccCall × String)) (s : AccState) (mid : String),
      (∀ ce ∈ l, isEdit ce.1 = true) → s.messageId = some mid → mid ≠ "" →
      (runCalls chan l s).1.messageId = some mid ∧
      countPosts (runCalls chan l s).2 = 0
  | [], s, mid, _, hm, _ => by simp [runCalls, countPosts, hm]
  | (c, e) :: tl, s, mid, hl, hm, hmid => by
    obtain ⟨h1, h2, -⟩ :=
      @edit_truthy_update chan c (hl (c, e) (by simp)) mid s hm hmid e
    obtain ⟨ih1, ih2⟩ := @edits_truthy_noposts chan tl (applyCall chan c e s).1
      mid (fun ce h => hl ce (by simp [h])) h1 hmid
    simp [runCalls, countPosts_append, h2, ih1, ih2]

/-- A `respond` finding a falsy primary id (null or `""`) posts afresh and
records whatever id the post returns. -/
theorem respond_falsy {chan text : String} {b : Bool} {e : String}
    {s : AccState} (hm : truthy s.messageId = false) :
    (applyCall chan (AccCall.respond text b) e s).1.messageId = some e ∧
    countPosts (applyCall chan (AccCall.respond text b) e s).2 = 1 ∧
    ∃ d rest, (applyCall chan (AccCall.respond text b) e s).2 =
      Act.post chan d :: rest := by
  rcases truthy_false_cases hm with h | h <;>
    (cases b <;> by_cases he : e = "" <;>
      simp [applyCall, editPrimary, h, he, countPosts])

theorem replaceMessage_falsy {chan text : String} {e : String}
    {s : AccState} (hm : truthy s.messageId = false) :
    (applyCall chan (AccCall.replaceMessage text) e s).1.messageId = some e ∧
    countPosts (applyCall chan (AccCall.replaceMessage text) e s).2 = 1 := by
  rcases truthy_false_cases hm with h | h <;>
    simp [applyCall, editPrimary, h, countPosts]

theorem setWorking_keepId {chan : String} {w : Bool} {e : String}
    {s : AccState} :
    (applyCall chan (AccCall.setWorking w) e s).1.messageId = s.messageId ∧
    countPosts (applyCall chan (AccCall.setWorking w) e s).2 = 0 := by
  cases hm : s.messageId with
  | none => simp [applyCall, hm, countPosts]
  | some mid => by_cases he : mid = "" <;> simp [applyCall, hm, he, countPosts]

/-- A run of edit steps from a falsy primary id, with every post returning a
nonempty id, posts at most once. -/
theorem edits_atMostOnePost {chan : String} :
    ∀ (l : List (AccCall × String)) (s : AccState),
      (∀ ce ∈ l, isEdit ce.1 = true) → (∀ ce ∈ l, ce.2 ≠ "") →
      truthy s.messageId = false →
      countPosts (runCalls chan l s).2 ≤ 1
  | [], _, _, _, _ => by simp [runCalls, countPosts]
  | (c, e) :: tl, s, hl, he, hm => by
    have hme : e ≠ "" := he (c, e) (by simp)
    have hltl : ∀ ce ∈ tl, isEdit ce.1 = true := fun ce h => hl ce (by simp [h])
    have hetl : ∀ ce ∈ tl, ce.2 ≠ "" := fun ce h => he ce (by simp [h])
    cases c with
    | respond text b =>
      obtain ⟨h1, h2, -⟩ := @respond_falsy chan text b e s hm
      obtain ⟨-, htl⟩ := @edits_truthy_noposts chan tl _ e hltl h1 hme
      simp [runCalls, countPosts_append, h2, htl]
    | replaceMessage text =>
      obtain ⟨h1, h2⟩ := @replaceMessage_falsy chan text e s hm
      obtain ⟨-, htl⟩ := @edits_truthy_noposts chan tl _ e hltl h1 hme
      simp [runCalls, countPosts_append, h2, htl]
    | setWorking w =>
      obtain ⟨h1, h2⟩ := @setWorking_keepId chan w e s
      have := @edits_atMostOnePost chan tl
        (applyCall chan (AccCall.setWorking w) e s).1
        hltl hetl (by rw [h1]; exact hm)
      simp [runCalls, countPosts_append, h2]
      exact this
    | respondInThread text =>
      exact absurd (hl (AccCall.respondInThread text, e) (by simp))
        (by simp [isEdit])
    | setTyping t =>
      exact absurd (hl (AccCall.setTyping t, e) (by simp)) (by simp [isEdit])
    | deleteMessage =>
      exact absurd (hl (AccCall.deleteMessage, e) (by simp)) (by simp [isEdit])

/-- **C7 (counterexample).** As stated, "the first issued edit posts and
records its id, and every subsequent edit updates that same id rather than
posting again" fails when the first post fails: `FeishuBot.postMessage`
returns `""` on transport error, `""` is falsy for `if (messageId)`, so the
second `respond` posts again — two posts, no update, on this run. -/
theorem primary_message_single_post_counterexample :
    (runCalls "C" [(AccCall.respond "a" false, ""),
                   (AccCall.respond "b" false, "m")] AccState.init).2 =
      [Act.post "C" "a ...", Act.post "C" "a\nb ..."] ∧
    countPosts (runCalls "C" [(AccCall.respond "a" false, ""),
                              (AccCall.respond "b" false, "m")]
      AccState.init).2 = 2 := by
  constructor <;> rfl

/-- **C7 (amended).** Within one run: an edit (`respond`, `replaceMessage`,
`setWorking`) that finds a truthy recorded primary id never posts — it keeps
the id and issues an update of that same id; and over any run of edit steps
from the initial state in which every post returns a nonempty id, at most
one post is ever issued (the id is created at most once and reused).  When a
post fails (returns `""`), the id is left unrecorded and a later edit posts
afresh. -/
theorem primary_message_id_single_post :
    (∀ (chan : String) (c : AccCall) (mid e : String) (s : AccState),
      isEdit c = true → s.messageId = some mid → mid ≠ "" →
      (applyCall chan c e s).1.messageId = some mid ∧
      countPosts (applyCall chan c e s).2 = 0 ∧
      ∃ d rest, (applyCall chan c e s).2 = Act.update mid d :: rest) ∧
    (∀ (chan : String) (l : List (AccCall × String)),
      (∀ ce ∈ l, isEdit ce.1 = true) → (∀ ce ∈ l, ce.2 ≠ "") →
      countPosts (runCalls chan l AccState.init).2 ≤ 1) :=
  ⟨fun _ c mid e s hc hm hmid => edit_truthy_update hc hm hmid e,
   fun chan l hl he => edits_atMostOnePost l AccState.init hl he rfl⟩

theorem primary_message_id_single_post_witness :
    countPosts (applyCall "C" (AccCall.respond "b" true) "m2"
      { AccState.init with messageId := some "m" }).2 = 0 ∧
    countPosts (runCalls "C" [(AccCall.respond "a" true, "m"),
                              (AccCall.setWorking false, "m3")]
      AccState.init).2 ≤ 1 :=
  ⟨(primary_message_id_single_post.1 "C" (AccCall.respond "b" true) "m" "m2"
      { AccState.init with messageId := some "m" }
      (by decide) (by decide) (by decide)).2.1,
   primary_message_id_single_post.2 "C"
     [(AccCall.respond "a" true, "m"), (AccCall.setWorking false, "m3")]
     (by decide) (by decide)⟩

/-! ## FeishuBot transport wrappers (feishu.ts, lines 291–354)

Each wrapper is `try { await client call } catch (err) { logWarning; ... }`:
the whole body is inside the `try`, so the returned promise never rejects.
We model the underlying client call's outcome as an `Except` value
(`Except.error` for a thrown/rejected call, `Except.ok` carrying the
response, in which the message id may be absent — `result?.data?.message_id
|| ""`), and the wrapper as the total function the `catch` makes of it. -/

def postMessage (r : Except String (Option String)) : String × List Act :=
  match r with
  | Except.ok (some mid) => (mid, [])
  | Except.ok none => ("", [])
  | Except.error e => ("", [Act.logWarn ("Failed to post message: " ++ e)])

def updateMessage (r : Except String Unit) : List Act :=
  match r with
  | Except.ok _ => []
  | Except.error e => [Act.logWarn ("Failed to update message: " ++ e)]

def deleteMessage (r : Except String Unit) : List Act :=
  match r with
  | Except.ok _ => []
  | Except.error e => [Act.logWarn ("Failed to delete message: " ++ e)]

def replyMessage (r : Except String (Option String)) : String × List Act :=
  match r with
  | Except.ok (some mid) => (mid, [])
  | Except.ok none => ("", [])
  | Except.error e => ("", [Act.logWarn ("Failed to reply message: " ++ e)])

/-- **C10.** Every transport wrapper handles every outcome of the underlying
client call — including a thrown error — by logging and returning a plain
value (never rejecting); on failure `postMessage` and `replyMessage` return
`""`.  Consequently a `respond` whose post failed records `""` as the
primary id, which is falsy, so the next `respond` issues a fresh post
instead of an update. -/
theorem transport_catches_and_empty_id_reposts :
    (∀ e, (postMessage (Except.error e)).1 = "" ∧
      (postMessage (Except.error e)).2 =
        [Act.logWarn ("Failed to post message: " ++ e)] ∧
      (replyMessage (Except.error e)).1 = "" ∧
      (replyMessage (Except.error e)).2 =
        [Act.logWarn ("Failed to reply message: " ++ e)] ∧
      updateMessage (Except.error e) =
        [Act.logWarn ("Failed to update message: " ++ e)] ∧
      deleteMessage (Except.error e) =
        [Act.logWarn ("Failed to delete message: " ++ e)]) ∧
    (∀ mid, (postMessage (Except.ok (some mid))).1 = mid ∧
      (replyMessage (Except.ok (some mid))).1 = mid ∧
      updateMessage (Except.ok ()) = [] ∧ deleteMessage (Except.ok ()) = []) ∧
    (∀ (chan x y err : String) (b1 b2 : Bool) (e2 : String) (s : AccState),
      truthy s.messageId = false →
      truthy ((applyCall chan (AccCall.respond x b1)
        (postMessage (Except.error err)).1 s).1.messageId) = false ∧
      ∃ d rest,
        (applyCall chan (AccCall.respond y b2) e2
          (applyCall chan (AccCall.respond x b1)
            (postMessage (Except.error err)).1 s).1).2 =
          Act.post chan d :: rest) := by
  refine ⟨fun e => ⟨rfl, rfl, rfl, rfl, rfl, rfl⟩,
          fun mid => ⟨rfl, rfl, rfl, rfl⟩, ?_⟩
  intro chan x y err b1 b2 e2 s hs
  obtain ⟨h1, -, -⟩ := @respond_falsy chan x b1 (postMessage (Except.error err)).1 s hs
  have hf : truthy ((applyCall chan (AccCall.respond x b1)
      (postMessage (Except.error err)).1 s).1.messageId) = false := by
    rw [h1]
    rfl
  exact ⟨hf, (@respond_falsy chan y b2 e2 _ hf).2.2⟩

theorem transport_catches_and_empty_id_reposts_witness :
    truthy (AccState.init.messageId) = false ∧
    (truthy ((applyCall "C" (AccCall.respond "a" true)
        (postMessage (Except.error "boom")).1 AccState.init).1.messageId) = false ∧
     ∃ d rest,
       (applyCall "C" (AccCall.respond "b" true) "m2"
         (applyCall "C" (AccCall.respond "a" true)
           (postMessage (Except.error "boom")).1 AccState.init).1).2 =
         Act.post "C" d :: rest) :=
  ⟨by decide,
   transport_catches_and_empty_id_reposts.2.2 "C" "a" "b" "boom" true true "m2"
     AccState.init (by decide)⟩

/-! ## Run lifecycle: per-channel state, stop handling, run completion
(main.ts, lines 358–380 and the Feishu handler, lines 728–776)

`ChannelState` carries `running`, `stopRequested` and `stopMessageTs` (the
runner and store are external collaborators).  `handleStop` is
`handler.handleStop`; `startRun` is the prefix of `handler.handleEvent`
before the agent is invoked (lines 747–750); `finishRun` is its suffix after
the agent settles (lines 759–774): the `try`'s stopped-notification logic on
a normal return, the `catch`'s log on a throw, and the `finally` clearing
`running` in both cases.  `envId` is the id returned by the "Stopping..."
post (`""` when that post failed).  An absent registry entry behaves as a
state with `running = false` for `handleStop` and `isRunning`. -/

/-- `RunResult` as consumed by the handler: only `stopReason` is read. -/
structure RunResult where
  stopReason : String
deriving DecidableEq, Repr

/-- How `await state.runner.run(...)` (together with the preceding context
calls inside the `try`) settles: a normal `RunResult` or a thrown error. -/
inductive RunOutcome where
  | ok (r : RunResult)
  | err (msg : String)
deriving DecidableEq, Repr

structure ChannelState where
  running : Bool
  stopRequested : Bool
  stopMessageTs : Option String
deriving DecidableEq, Repr

/-- A fresh registry entry (`getState`, lines 368–380). -/
def ChannelState.init : ChannelState :=
  { running := false, stopRequested := false, stopMessageTs := none }

/-- `handler.handleStop` (lines 734–744): when running, set `stopRequested`,
signal `runner.abort()`, post "Stopping..." and remember its id; otherwise
just post "Nothing running". -/
def handleStop (chan envId : String) (st : ChannelState) :
    ChannelState × List Act :=
  if st.running then
    ({ st with stopRequested := true, stopMessageTs := some envId },
     [Act.abortSignal, Act.post chan "Stopping..."])
  else (st, [Act.post chan "Nothing running"])

/-- The start of `handler.handleEvent` (lines 747–750), executed before the
agent contract is invoked: mark the channel running and clear any stale stop
request. -/
def startRun (st : ChannelState) : ChannelState :=
  { st with running := true, stopRequested := false }

/-- The end of `handler.handleEvent` (lines 754–774) once the run settles:
on a normal result, emit the single "Stopped" notification when the run was
aborted by a stop request — updating the remembered "Stopping..." message
when its id is truthy, posting a fresh "Stopped" otherwise; on a thrown
error, log it; in both cases (`finally`) clear `running`. -/
def finishRun (chan : String) (st : ChannelState) (o : RunOutcome) :
    ChannelState × List Act :=
  match o with
  | RunOutcome.err m => ({ st with running := false }, [Act.logWarn m])
  | RunOutcome.ok r =>
    let base : ChannelState × List Act :=
      if r.stopReason = "aborted" ∧ st.stopRequested then
        match st.stopMessageTs with
        | some ts =>
          if ts = "" then (st, [Act.post chan "Stopped"])
          else ({ st with stopMessageTs := none }, [Act.update ts "Stopped"])
        | none => (st, [Act.post chan "Stopped"])
      else (st, [])
    ({ base.1 with running := false }, base.2)

/-- A transition of one channel's lifecycle state: a stop command, the start
of a queued run, or the completion of the running agent. -/
inductive CStep : ChannelState → ChannelState → Prop where
  | stop (chan envId : String) (st : ChannelState) :
      CStep st (handleStop chan envId st).1
  | start (st : ChannelState) : CStep st (startRun st)
  | finish (chan : String) (o : RunOutcome) (st : ChannelState) :
      CStep st (finishRun chan st o).1

/-- Acts that notify the user the run stopped. -/
def isStoppedNotice : Act → Bool
  | Act.post _ t => t = "Stopped"
  | Act.update _ t => t = "Stopped"
  | _ => false

theorem finishRun_stopRequested (chan : String) (st : ChannelState)
    (o : RunOutcome) :
    (finishRun chan st o).1.stopRequested = st.stopRequested := by
  cases o with
  | err m => rfl
  | ok r =>
    simp only [finishRun]
    split
    · split <;> (try split) <;> rfl
    · rfl

/-- **C3.** A failed run never wedges the channel: whatever the outcome of
the agent run — including a thrown error, which is caught and logged — the
`finally` clears `running`; and on the queue side a settling work item
(resolved or rejected, the rejection having been caught and logged) clears
`processing` and immediately starts the next queued item if there is one, so
one item's failure neither halts the queue nor leaves the channel busy. -/
theorem run_failure_releases_channel_and_queue :
    (∀ (chan : String) (st : ChannelState) (o : RunOutcome),
      (finishRun chan st o).1.running = false) ∧
    (∀ (chan : String) (st : ChannelState) (m : String),
      (finishRun chan st (RunOutcome.err m)).2 = [Act.logWarn m]) ∧
    (∀ (s : QState) (i w : Nat) (rest : List Nat) (ok : Bool),
      s.active = some i → s.cq.queue = w :: rest →
      ChannelQueue.settle ok s =
        { cq := { queue := rest, processing := true },
          active := some w,
          trace := s.trace ++ [QEvent.finish i ok, QEvent.start w] }) ∧
    (∀ (s : QState) (i : Nat) (ok : Bool),
      s.active = some i → s.cq.queue = [] →
      ChannelQueue.settle ok s =
        { cq := { queue := [], processing := false },
          active := none,
          trace := s.trace ++ [QEvent.finish i ok] }) := by
  refine ⟨?_, fun _ _ _ => rfl, ?_, ?_⟩
  · intro chan st o
    cases o with
    | err m => rfl
    | ok r => rfl
  · intro s i w rest ok ha hq
    obtain ⟨⟨q, pr⟩, act, tr⟩ := s
    obtain rfl : act = some i := ha
    obtain rfl : q = w :: rest := hq
    simp [ChannelQueue.settle, Mom.processNextSync]
  · intro s i ok ha hq
    obtain ⟨⟨q, pr⟩, act, tr⟩ := s
    obtain rfl : act = some i := ha
    obtain rfl : q = [] := hq
    simp [ChannelQueue.settle, Mom.processNextSync]

theorem run_failure_releases_channel_and_queue_witness :
    ((⟨⟨[7], true⟩, some 3,
        [QEvent.enq 3, QEvent.start 3, QEvent.enq 7]⟩ : QState).active =
      some 3 ∧
     (⟨⟨[7], true⟩, some 3,
        [QEvent.enq 3, QEvent.start 3, QEvent.enq 7]⟩ : QState).cq.queue =
      [7]) ∧
    ChannelQueue.settle false
      (⟨⟨[7], true⟩, some 3,
        [QEvent.enq 3, QEvent.start 3, QEvent.enq 7]⟩ : QState) =
      { cq := { queue := [], processing := true },
        active := some 7,
        trace := [QEvent.enq 3, QEvent.start 3, QEvent.enq 7] ++
          [QEvent.finish 3 false, QEvent.start 7] } :=
  ⟨⟨by decide, by decide⟩,
   run_failure_releases_channel_and_queue.2.2.1
     (⟨⟨[7], true⟩, some 3, [QEvent.enq 3, QEvent.start 3, QEvent.enq 7]⟩ :
       QState) 3 7 [] false (by decide) (by decide)⟩

/-- **C4.** A stop request while the channel is idle leaves the channel
state untouched and sends no abort signal (it only posts "Nothing
running"); while running, it sets `stopRequested`, signals the agent's
abort, and when the run then returns with `stopReason = "aborted"` exactly
one terminal "Stopped" notification is produced — an update of the
remembered "Stopping..." placeholder when its id is truthy, a fresh post
otherwise. -/
theorem stop_request_lifecycle :
    (∀ (chan envId : String) (st : ChannelState), st.running = false →
      (handleStop chan envId st).1 = st ∧
      (handleStop chan envId st).2 = [Act.post chan "Nothing running"] ∧
      ¬ Act.abortSignal ∈ (handleStop chan envId st).2) ∧
    (∀ (chan envId : String) (st : ChannelState), st.running = true →
      (handleStop chan envId st).1.stopRequested = true ∧
      Act.abortSignal ∈ (handleStop chan envId st).2 ∧
      ((finishRun chan (handleStop chan envId st).1
          (RunOutcome.ok ⟨"aborted"⟩)).2.filter isStoppedNotice).length = 1 ∧
      (envId ≠ "" →
        (finishRun chan (handleStop chan envId st).1
          (RunOutcome.ok ⟨"aborted"⟩)).2 = [Act.update envId "Stopped"])) := by
  constructor
  · intro chan envId st hr
    refine ⟨?_, ?_, ?_⟩ <;> simp [handleStop, hr]
  · intro chan envId st hr
    refine ⟨by simp [handleStop, hr], by simp [handleStop, hr], ?_, ?_⟩
    · by_cases he : envId = "" <;>
        simp [handleStop, hr, finishRun, he, isStoppedNotice]
    · intro he
      simp [handleStop, hr, finishRun, he]

theorem stop_request_lifecycle_witness :
    ((⟨false, false, none⟩ : ChannelState).running = false ∧
     (handleStop "C" "mS" (⟨false, false, none⟩ : ChannelState)).2 =
       [Act.post "C" "Nothing running"]) ∧
    ((⟨true, false, none⟩ : ChannelState).running = true ∧
     (finishRun "C" (handleStop "C" "mS" (⟨true, false, none⟩ : ChannelState)).1
        (RunOutcome.ok ⟨"aborted"⟩)).2 = [Act.update "mS" "Stopped"]) :=
  ⟨⟨by decide,
    (stop_request_lifecycle.1 "C" "mS" ⟨false, false, none⟩ (by decide)).2.1⟩,
   ⟨by decide,
    (stop_request_lifecycle.2 "C" "mS" ⟨true, false, none⟩ (by decide)).2.2.2
      (by decide)⟩⟩

/-- **C6.** Over every lifecycle transition of a channel state,
`stopRequested` flips from false to true only while `running` is true (the
stop handler is guarded on the running flag), and the start of the next run
— executed before the agent contract is invoked — resets it to false (and
sets `running`). -/
theorem stopRequested_only_while_running :
    (∀ (st st' : ChannelState), CStep st st' →
      st.stopRequested = false → st'.stopRequested = true →
      st.running = true) ∧
    (∀ st : ChannelState,
      (startRun st).stopRequested = false ∧ (startRun st).running = true) := by
  constructor
  · intro st st' hstep h0 h1
    cases hstep with
    | stop chan envId st =>
      by_cases hr : st.running
      · exact hr
      · rw [handleStop, if_neg hr] at h1
        rw [h0] at h1
        cases h1
    | start st =>
      rw [startRun] at h1
      cases h1
    | finish chan o st =>
      rw [finishRun_stopRequested, h0] at h1
      cases h1
  · intro st
    exact ⟨rfl, rfl⟩

theorem stopRequested_only_while_running_witness :
    CStep (⟨true, false, none⟩ : ChannelState)
      (handleStop "C" "mS" (⟨true, false, none⟩ : ChannelState)).1 ∧
    (⟨true, false, none⟩ : ChannelState).running = true :=
  ⟨CStep.stop "C" "mS" ⟨true, false, none⟩,
   stopRequested_only_while_running.1 ⟨true, false, none⟩
     (handleStop "C" "mS" ⟨true, false, none⟩).1
     (CStep.stop "C" "mS" ⟨true, false, none⟩) (by decide) (by decide)⟩

/-! ## Event normalization and admission
(feishu.ts: `handleMessageEvent` lines 177–262, `isBotMentioned` lines
264–273, `enqueueEvent` lines 417–434)

The content-parse block (lines 193–205, JSON decoding of the platform
payload) is abstracted: `contentText` is the text that block produced; every
subsequent check of `handleMessageEvent` is modelled faithfully on it.
JavaScript `String.prototype.replace` with a string pattern replaces only
the first occurrence — `jsReplaceFirst` below.  The sync file logging
(`logUserMessage`) has no bearing on the outcome and is omitted from the
act list. -/

structure Mention where
  key : Option String
  openId : Option String
  name : Option String
deriving DecidableEq, Repr

structure SenderInfo where
  openId : Option String
  stype : Option String
deriving DecidableEq, Repr

structure MessageInfo where
  messageId : Option String
  contentText : String
  mentions : Option (List Mention)
  chatType : Option String
  chatId : String
  createTime : Option String
deriving DecidableEq, Repr

structure EventData where
  sender : Option SenderInfo
  message : Option MessageInfo
deriving DecidableEq, Repr

structure FeishuEvent where
  type : String
  channel : String
  ts : String
  user : String
  text : String
  messageId : String
deriving DecidableEq, Repr

/-- JS whitespace for `trim` (ASCII subset; the strings this code compares
are ASCII). -/
def jsWhitespace (c : Char) : Bool :=
  c = ' ' || c = '\t' || c = '\n' || c = '\r'

/-- JS `String.prototype.trim` (ASCII model). -/
def jsTrim (s : String) : String :=
  String.mk
    (((s.data.dropWhile jsWhitespace).reverse.dropWhile jsWhitespace).reverse)

def lowerChar (c : Char) : Char :=
  if 'A' ≤ c ∧ c ≤ 'Z' then Char.ofNat (c.toNat + 32) else c

/-- JS `String.prototype.toLowerCase` (ASCII model). -/
def jsToLower (s : String) : String :=
  String.mk (s.data.map lowerChar)

def listStartsWith : List Char → List Char → Bool
  | [], _ => true
  | _ :: _, [] => false
  | p :: ps, c :: cs => p = c && listStartsWith ps cs

/-- Remove the first occurrence of `pat` (JS `s.replace(pat, "")` with a
string pattern). -/
def replaceFirstAux (pat : List Char) : List Char → List Char
  | [] => []
  | c :: cs =>
    if listStartsWith pat (c :: cs) then (c :: cs).drop pat.length
    else c :: replaceFirstAux pat cs

def jsReplaceFirst (s pat : String) : String :=
  String.mk (replaceFirstAux pat.data s.data)

/-- Lines 207–214: for each mention with a truthy `key`, strip its first
occurrence and trim. -/
def stripMentions (text : String) (ms : List Mention) : String :=
  ms.foldl (fun t m =>
    match m.key with
    | some k => if k = "" then t else jsTrim (jsReplaceFirst t k)
    | none => t) text

/-- `isBotMentioned` (lines 264–273): when the bot's open id is truthy,
require it among the mention ids; otherwise assume any mention addresses the
bot. -/
def isBotMentioned (botOpenId : Option String) (ms : List Mention) : Bool :=
  match botOpenId with
  | some bid =>
    if bid = "" then true else ms.any (fun m => m.openId = some bid)
  | none => true

/-- The mention-stripped, trimmed text the normalized event carries. -/
def normText (message : MessageInfo) : String :=
  jsTrim (match message.mentions with
   | some ms => stripMentions message.contentText ms
   | none => message.contentText)

/-- What `handleMessageEvent` decides to do with a payload. -/
inductive HMEOutcome where
  | ignored
  | stopRouted
  | stopIdle
  | alreadyWorking
  | enqueued (ev : FeishuEvent)
deriving DecidableEq, Repr

/-- `handleMessageEvent` (lines 177–262).  `botOpenId` is the field the
checks read (never assigned in this file, hence `none` at runtime);
`running` is `handler.isRunning(chat_id)`; `nowTs` stands for
`Date.now().toString()`. -/
def handleMessageEvent (botOpenId : Option String) (running : Bool)
    (nowTs : String) (data : EventData) : HMEOutcome × List Act :=
  match data.sender, data.message with
  | some sender, some message =>
    if sender.stype = some "app" then (HMEOutcome.ignored, [])
    else
      match sender.openId, message.messageId with
      | some sid, some mid =>
        if sid = "" ∨ mid = "" then (HMEOutcome.ignored, [])
        else
          let isDM : Bool := message.chatType = some "p2p"
          let ev : FeishuEvent :=
            { type := if isDM then "dm" else "mention",
              channel := message.chatId,
              ts := match message.createTime with
                | some t => if t = "" then nowTs else t
                | none => nowTs,
              user := sid,
              text := normText message,
              messageId := mid }
          if jsTrim (jsToLower ev.text) = "stop" then
            if running then (HMEOutcome.stopRouted, [])
            else (HMEOutcome.stopIdle,
              [Act.post message.chatId "_Nothing running_"])
          else if !isDM && (match message.mentions with
              | none => true
              | some ms => !isBotMentioned botOpenId ms) then
            (HMEOutcome.ignored, [])
          else if running then
            (HMEOutcome.alreadyWorking,
             [Act.post message.chatId "Already working. Say stop to cancel."])
          else (HMEOutcome.enqueued ev, [])
      | _, _ => (HMEOutcome.ignored, [])
  | _, _ => (HMEOutcome.ignored, [])

/-- `enqueueEvent` (lines 417–434) on the channel's queue: drop with a
warning when five or more items are pending, else enqueue the work. -/
def enqueueEvent (chan : String) (workId : Nat) (s : QState) :
    Bool × QState × List Act :=
  if 5 ≤ s.cq.queue.length then
    (false, s,
     [Act.logWarn ("Event queue full for " ++ chan ++ ", discarding")])
  else (true, ChannelQueue.enqueue workId s, [])

/-- **C8 (counterexample).** "In group channels it discards events that do
not mention the bot" fails as stated: `botOpenId` is never assigned in
feishu.ts, so `isBotMentioned` falls back to `true` for any nonempty mention
list — a group message mentioning only another user (open id `u2`, not the
bot) is enqueued, not discarded. -/
theorem event_normalizer_group_counterexample :
    handleMessageEvent none false "999"
      { sender := some
          { openId := some "u1", stype := some "user" },
        message := some
          { messageId := some "m1", contentText := "hello",
            mentions := some
              [{ key := some "@_user_1", openId := some "u2",
                 name := some "Alice" }],
            chatType := some "group", chatId := "G",
            createTime := some "123" } } =
      (HMEOutcome.enqueued
        { type := "mention", channel := "G", ts := "123",
          user := "u1", text := "hello", messageId := "m1" }, []) := by
  decide

/-- **C8 (amended).** The normalizer discards events authored by the bot
itself (sender type "app").  In group (non-p2p) channels it discards events
carrying no mention list at all and, when the bot's open id is known, also
events whose mentions do not include the bot (with the id unknown — as it
always is in this code — any mention is accepted as addressing the bot).  A
message whose normalized text equals the stop keyword "stop" is routed to
the stop path — `handleStop` when the channel is running, a "Nothing
running" notice otherwise — and is never enqueued as a job. -/
theorem event_normalizer_rules :
    (∀ (b : Option String) (r : Bool) (now : String) (d : EventData)
       (sender : SenderInfo) (message : MessageInfo),
      d.sender = some sender → d.message = some message →
      sender.stype = some "app" →
      handleMessageEvent b r now d = (HMEOutcome.ignored, [])) ∧
    (∀ (b : Option String) (r : Bool) (now : String) (d : EventData)
       (sender : SenderInfo) (message : MessageInfo) (sid mid : String),
      d.sender = some sender → d.message = some message →
      ¬ sender.stype = some "app" →
      sender.openId = some sid → ¬ sid = "" →
      message.messageId = some mid → ¬ mid = "" →
      ¬ jsTrim (jsToLower (normText message)) = "stop" →
      ¬ message.chatType = some "p2p" →
      message.mentions = none →
      handleMessageEvent b r now d = (HMEOutcome.ignored, [])) ∧
    (∀ (bid : String) (r : Bool) (now : String) (d : EventData)
       (sender : SenderInfo) (message : MessageInfo) (sid mid : String)
       (ms : List Mention),
      d.sender = some sender → d.message = some message →
      ¬ sender.stype = some "app" →
      sender.openId = some sid → ¬ sid = "" →
      message.messageId = some mid → ¬ mid = "" →
      ¬ jsTrim (jsToLower (normText message)) = "stop" →
      ¬ message.chatType = some "p2p" →
      message.mentions = some ms → ¬ bid = "" →
      (∀ m ∈ ms, ¬ m.openId = some bid) →
      handleMessageEvent (some bid) r now d = (HMEOutcome.ignored, [])) ∧
    (∀ (b : Option String) (r : Bool) (now : String) (d : EventData)
       (sender : SenderInfo) (message : MessageInfo) (sid mid : String),
      d.sender = some sender → d.message = some message →
      ¬ sender.stype = some "app" →
      sender.openId = some sid → ¬ sid = "" →
      message.messageId = some mid → ¬ mid = "" →
      jsTrim (jsToLower (normText message)) = "stop" →
      handleMessageEvent b r now d =
        (if r then (HMEOutcome.stopRouted, ([] : List Act))
         else (HMEOutcome.stopIdle,
           [Act.post message.chatId "_Nothing running_"])) ∧
      ∀ ev, (handleMessageEvent b r now d).1 ≠ HMEOutcome.enqueued ev) := by
  refine ⟨?_, ?_, ?_, ?_⟩
  · intro b r now d sender message hs hm hsty
    simp [handleMessageEvent, hs, hm, hsty]
  · intro b r now d sender message sid mid hs hm hsty hso hsid hmi hmid
      hstop hdm hmen
    simp [handleMessageEvent, hs, hm, hsty, hso, hsid, hmi, hmid, hstop,
      hdm, hmen]
  · intro bid r now d sender message sid mid ms hs hm hsty hso hsid hmi hmid
      hstop hdm hmen hbid hnm
    have hbm : isBotMentioned (some bid) ms = false := by
      simp [isBotMentioned, hbid]
      intro m hmem
      exact fun hc => absurd hc (hnm m hmem)
    simp [handleMessageEvent, hs, hm, hsty, hso, hsid, hmi, hmid, hstop,
      hdm, hmen, hbm]
  · intro b r now d sender message sid mid hs hm hsty hso hsid hmi hmid hstop
    constructor
    · cases r <;>
        simp [handleMessageEvent, hs, hm, hsty, hso, hsid, hmi, hmid, hstop]
    · intro ev
      cases r <;>
        simp [handleMessageEvent, hs, hm, hsty, hso, hsid, hmi, hmid, hstop]

theorem event_normalizer_rules_witness :
    handleMessageEvent none true "9"
      { sender := some
          { openId := some "u1", stype := some "app" },
        message := some
          { messageId := some "m1", contentText := "hi",
            mentions := none, chatType := some "p2p", chatId := "D",
            createTime := some "1" } } = (HMEOutcome.ignored, []) ∧
    handleMessageEvent none true "9"
      { sender := some
          { openId := some "u1", stype := some "user" },
        message := some
          { messageId := some "m1", contentText := " Stop ",
            mentions := none, chatType := some "p2p", chatId := "D",
            createTime := some "1" } } =
      (if true then (HMEOutcome.stopRouted, ([] : List Act))
       else (HMEOutcome.stopIdle, [Act.post "D" "_Nothing running_"])) :=
  ⟨event_normalizer_rules.1 none true "9" _
     { openId := some "u1", stype := some "app" }
     { messageId := some "m1", contentText := "hi", mentions := none,
       chatType := some "p2p", chatId := "D", createTime := some "1" }
     rfl rfl rfl,
   (event_normalizer_rules.2.2.2 none true "9" _
     { openId := some "u1", stype := some "user" }
     { messageId := some "m1", contentText := " Stop ", mentions := none,
       chatType := some "p2p", chatId := "D", createTime := some "1" }
     "u1" "m1" rfl rfl (by decide) rfl (by decide) rfl (by decide)
     (by decide)).1⟩

/-- **C5.** Admission is bounded: an inbound user message for a channel
whose handler reports running — having passed the authorship, id, stop and
mention gates — is answered with "Already working. Say stop to cancel." and
is not enqueued; a watcher event is enqueued only while fewer than five
items are pending on the channel's queue, otherwise it is discarded with a
"queue full, discarding" warning and `enqueueEvent` returns `false`,
leaving the queue state untouched. -/
theorem admission_bounded :
    (∀ (b : Option String) (now : String) (d : EventData)
       (sender : SenderInfo) (message : MessageInfo) (sid mid : String),
      d.sender = some sender → d.message = some message →
      ¬ sender.stype = some "app" →
      sender.openId = some sid → ¬ sid = "" →
      message.messageId = some mid → ¬ mid = "" →
      ¬ jsTrim (jsToLower (normText message)) = "stop" →
      (message.chatType = some "p2p" ∨
        ∃ ms, message.mentions = some ms ∧ isBotMentioned b ms = true) →
      handleMessageEvent b true now d =
        (HMEOutcome.alreadyWorking,
         [Act.post message.chatId "Already working. Say stop to cancel."])) ∧
    (∀ (chan : String) (workId : Nat) (s : QState),
      s.cq.queue.length < 5 →
      enqueueEvent chan workId s = (true, ChannelQueue.enqueue workId s, [])) ∧
    (∀ (chan : String) (workId : Nat) (s : QState),
      5 ≤ s.cq.queue.length →
      enqueueEvent chan workId s =
        (false, s,
         [Act.logWarn ("Event queue full for " ++ chan ++ ", discarding")])) := by
  refine ⟨?_, ?_, ?_⟩
  · intro b now d sender message sid mid hs hm hsty hso hsid hmi hmid
      hstop hgate
    rcases hgate with hdm | ⟨ms, hms, hbm⟩
    · simp [handleMessageEvent, hs, hm, hsty, hso, hsid, hmi, hmid, hstop, hdm]
    · simp [handleMessageEvent, hs, hm, hsty, hso, hsid, hmi, hmid, hstop,
        hms, hbm]
  · intro chan workId s h
    simp [enqueueEvent, Nat.not_le.mpr h]
  · intro chan workId s h
    simp [enqueueEvent, h]

theorem admission_bounded_witness :
    handleMessageEvent none true "9"
      { sender := some
          { openId := some "u1", stype := some "user" },
        message := some
          { messageId := some "m1", contentText := "do it",
            mentions := none, chatType := some "p2p", chatId := "D",
            createTime := some "1" } } =
      (HMEOutcome.alreadyWorking,
       [Act.post "D" "Already working. Say stop to cancel."]) ∧
    enqueueEvent "D" 9
      (⟨⟨[1, 2, 3, 4, 5], true⟩, some 0, []⟩ : QState) =
      (false, (⟨⟨[1, 2, 3, 4, 5], true⟩, some 0, []⟩ : QState),
       [Act.logWarn ("Event queue full for " ++ "D" ++ ", discarding")]) :=
  ⟨admission_bounded.1 none "9" _
     { openId := some "u1", stype := some "user" }
     { messageId := some "m1", contentText := "do it", mentions := none,
       chatType := some "p2p", chatId := "D", createTime := some "1" }
     "u1" "m1" rfl rfl (by decide) rfl (by decide) rfl (by decide)
     (by decide) (Or.inl rfl),
   admission_bounded.2.2 "D" 9 (⟨⟨[1, 2, 3, 4, 5], true⟩, some 0, []⟩ : QState)
     (by decide)⟩

/-! ## Daemon supervision via the PID file (main.ts, lines 122–262)

The world state is the PID file's content (absent or a string) together with
the liveness of each process id — `isProcessAlive` is the signal probe
`process.kill(pid, 0)`, a pure read.  `readPidFile` (lines 145–152) trims
the content and applies `parseInt(content, 10)`, `null` for `NaN`; pid files
are decimal, so we model `parseInt` as the longest leading digit run.
`statusCmd` is the `--status` handler (lines 199–215); `daemonStart` is the
`--daemon` handler (lines 218–262) with `childPid` the pid `spawn` returned
(`0` modelling a falsy `child.pid`). -/

structure World where
  pidFile : Option String
  alive : Nat → Bool

def digitsToNat (l : List Char) : Nat :=
  l.foldl (fun n c => n * 10 + (c.toNat - 48)) 0

/-- `parseInt(content, 10)` on trimmed pid-file content, `none` for NaN. -/
def parsePid (content : String) : Option Nat :=
  match content.data.takeWhile Char.isDigit with
  | [] => none
  | ds => some (digitsToNat ds)

/-- `readPidFile` (lines 145–152): `null` when the file is absent or does
not parse. -/
def readPidFile (w : World) : Option Nat :=
  match w.pidFile with
  | none => none
  | some content => parsePid (jsTrim content)

structure CmdOutcome where
  exitCode : Nat
  report : List String
deriving DecidableEq, Repr

/-- The `--status` handler (lines 199–215). -/
def statusCmd (w : World) : World × CmdOutcome :=
  match readPidFile w with
  | none => (w, ⟨1, ["Mom bot is not running (no PID file)."]⟩)
  | some pid =>
    if w.alive pid then
      (w, ⟨0, ["Mom bot is running (PID: " ++ toString pid ++ ")."]⟩)
    else
      ({ w with pidFile := none },
       ⟨1, ["Mom bot is not running (stale PID: " ++ toString pid ++
            "). Removing PID file."]⟩)

/-- The `--daemon` handler (lines 218–262): refuse when the PID file names a
live process; otherwise spawn the detached child (streams to the log file)
and persist its pid when truthy, exiting 0. -/
def daemonStart (w : World) (childPid : Nat) : World × CmdOutcome :=
  match readPidFile w with
  | some pid =>
    if w.alive pid then
      (w, ⟨1, ["Mom bot is already running (PID: " ++ toString pid ++
               "). Stop it first"]⟩)
    else
      (if childPid ≠ 0 then { w with pidFile := some (toString childPid) }
       else w,
       ⟨0, ["Mom bot started in background."]⟩)
  | none =>
    (if childPid ≠ 0 then { w with pidFile := some (toString childPid) }
     else w,
     ⟨0, ["Mom bot started in background."]⟩)

/-- **C9.** When the PID file names a dead process, `--status` reports
not-running (exit 1) and deletes the stale file, after which `--daemon`
start succeeds (exit 0); and daemon start refuses with an error exit exactly
when the PID file names a live process. -/
theorem daemon_stale_pid_recovery :
    (∀ (w : World) (pid : Nat), readPidFile w = some pid →
      w.alive pid = false →
      (statusCmd w).2.exitCode = 1 ∧
      (statusCmd w).1.pidFile = none ∧
      (statusCmd w).2.report =
        ["Mom bot is not running (stale PID: " ++ toString pid ++
         "). Removing PID file."] ∧
      ∀ childPid, (daemonStart (statusCmd w).1 childPid).2.exitCode = 0) ∧
    (∀ (w : World) (childPid : Nat),
      (daemonStart w childPid).2.exitCode ≠ 0 ↔
      ∃ pid, readPidFile w = some pid ∧ w.alive pid = true) := by
  constructor
  · intro w pid hr hd
    have hstat : statusCmd w =
        ({ w with pidFile := none },
         ⟨1, ["Mom bot is not running (stale PID: " ++ toString pid ++
              "). Removing PID file."]⟩) := by
      simp [statusCmd, hr, hd]
    refine ⟨by rw [hstat], by rw [hstat], by rw [hstat], ?_⟩
    intro childPid
    rw [hstat]
    by_cases hc : childPid = 0 <;> simp [daemonStart, readPidFile, hc]
  · intro w childPid
    constructor
    · intro hne
      cases hr : readPidFile w with
      | none =>
        rw [daemonStart] at hne
        simp [hr] at hne
      | some pid =>
        refine ⟨pid, rfl, ?_⟩
        by_contra hd
        rw [daemonStart] at hne
        rw [hr] at hne
        simp only [if_neg hd] at hne
        by_cases hc : childPid = 0 <;> simp [hc] at hne
    · rintro ⟨pid, hr, hl⟩
      rw [daemonStart]
      simp [hr, hl]

theorem daemon_stale_pid_recovery_witness :
    readPidFile ⟨some "123", fun _ => false⟩ = some 123 ∧
    (statusCmd ⟨some "123", fun _ => false⟩).2.exitCode = 1 ∧
    (statusCmd ⟨some "123", fun _ => false⟩).1.pidFile = none ∧
    (daemonStart (statusCmd ⟨some "123", fun _ => false⟩).1 77).2.exitCode = 0 :=
  ⟨by decide,
   (daemon_stale_pid_recovery.1 ⟨some "123", fun _ => false⟩ 123
      (by decide) rfl).1,
   (daemon_stale_pid_recovery.1 ⟨some "123", fun _ => false⟩ 123
      (by decide) rfl).2.1,
   (daemon_stale_pid_recovery.1 ⟨some "123", fun _ => false⟩ 123
      (by decide) rfl).2.2.2 77⟩

end Mom
